import Mathlib

/-!
Verification of the avalon-engine rule engine against its specification.

The development shallowly embeds the engine's source:
* `src/quest.ts` — the `Quest` class (team-vote rounds, quest votes, status);
* `src/game-states/game-state-machine.ts` — the typed finite state machine;
* the `GameState` snapshot constructor (`_omitUselessFields`).

JavaScript numbers that the code only ever increments, measures and compares
are embedded as `Nat`; the tri-state quest status (`-1 | 0 | 1`) as `Int`.
Reading a property of `undefined` (an out-of-range array index) throws a
`TypeError` in JavaScript; the embedding surfaces those reads as `Option`
results and the thrown error as an explicit error value.
-/

/-- A vote: the `Vote` class, an immutable (username, value) pair. -/
structure Vote where
  username : String
  value : Bool
deriving DecidableEq, Repr

/-- State of the `Quest` class (`src/quest.ts`).  Field names follow the
source (`_votesNeeded`, `_failsNeeded`, `_totalPlayers`, `_teamVoteRounds`,
`_teamVotingRoundIndex`, `_questVotes`) with the leading underscore dropped. -/
structure Quest where
  votesNeeded : Nat
  failsNeeded : Nat
  totalPlayers : Nat
  teamVoteRounds : List (List Vote)
  teamVotingRoundIndex : Nat
  questVotes : List Vote
deriving DecidableEq, Repr

/-- The `Quest` constructor: stores the config and initialises
`_teamVoteRounds = [[], [], [], [], []]`, `_teamVotingRoundIndex = 0`,
`_questVotes = []`. -/
def mkQuest (votesNeeded failsNeeded totalPlayers : Nat) : Quest :=
  { votesNeeded := votesNeeded
    failsNeeded := failsNeeded
    totalPlayers := totalPlayers
    teamVoteRounds := [[], [], [], [], []]
    teamVotingRoundIndex := 0
    questVotes := [] }

/-- `_failsCount` / the reduce inside `_majorityApproved`: counts the
rejecting votes (`acc + 1` when `vote.getValue()` is falsy). -/
def failsCount (votes : List Vote) : Nat :=
  votes.foldl (fun acc v => if v.value then acc else acc + 1) 0

/-- `_getCurrentTeamVotingRound()`: `this._teamVoteRounds[this._teamVotingRoundIndex]`.
JavaScript yields `undefined` when the index is out of range, embedded as `none`. -/
def currentTeamVotingRound (q : Quest) : Option (List Vote) :=
  q.teamVoteRounds.get? q.teamVotingRoundIndex

/-- `_getPreviousTeamVotingRound()`: `this._teamVoteRounds[this._teamVotingRoundIndex - 1]`.
At index 0 the JavaScript index is `-1`, which reads as `undefined` (`none`). -/
def previousTeamVotingRound (q : Quest) : Option (List Vote) :=
  if q.teamVotingRoundIndex = 0 then none
  else q.teamVoteRounds.get? (q.teamVotingRoundIndex - 1)

/-- `_majorityApproved` on a given round:
`failsCount < Math.ceil(currentRound.length / 2)`;
`Math.ceil (n / 2) = (n + 1) / 2` on naturals. -/
def majorityApproved (round : List Vote) : Bool :=
  decide (failsCount round < (round.length + 1) / 2)

/-- `_everybodyVotedFor(round)`: `round.length === this._totalPlayers`. -/
def everybodyVotedFor (q : Quest) (round : List Vote) : Bool :=
  round.length == q.totalPlayers

/-- `teamVotingAllowed()` evaluated on the current round `round`. -/
def teamVotingAllowedOn (q : Quest) (round : List Vote) : Bool :=
  decide (round.length < q.totalPlayers) || ! majorityApproved round

/-- `teamVotingSucceeded()` evaluated on the current round `round`. -/
def teamVotingSucceededOn (q : Quest) (round : List Vote) : Bool :=
  ! teamVotingAllowedOn q round && majorityApproved round

/-- `questVotingAllowed()` evaluated on the current round `round`. -/
def questVotingAllowedOn (q : Quest) (round : List Vote) : Bool :=
  teamVotingSucceededOn q round && decide (q.questVotes.length < q.votesNeeded)

/-- `teamVotingAllowed()`; `none` when reading the current round throws. -/
def teamVotingAllowed (q : Quest) : Option Bool :=
  (currentTeamVotingRound q).map (teamVotingAllowedOn q)

/-- `teamVotingSucceeded()`; `none` when reading the current round throws. -/
def teamVotingSucceeded (q : Quest) : Option Bool :=
  (currentTeamVotingRound q).map (teamVotingSucceededOn q)

/-- `questVotingAllowed()`; `none` when reading the current round throws. -/
def questVotingAllowed (q : Quest) : Option Bool :=
  (currentTeamVotingRound q).map (questVotingAllowedOn q)

/-- `_questVotingFailed()`: `this._failsCount() < this._failsNeeded`
(despite its name it is truthy when the quest has NOT failed). -/
def questVotingFailedFlag (q : Quest) : Bool :=
  decide (failsCount q.questVotes < q.failsNeeded)

/-- `questVotingFinished()`: `this._questVotes.length === this._votesNeeded`. -/
def questVotingFinished (q : Quest) : Bool :=
  q.questVotes.length == q.votesNeeded

/-- `getStatus()` evaluated on the current round `round`. -/
def getStatusOn (q : Quest) (round : List Vote) : Int :=
  if teamVotingAllowedOn q round || questVotingAllowedOn q round then -1
  else if questVotingFailedFlag q then 1 else 0

/-- `getStatus()`; `none` when reading the current round throws. -/
def getStatus (q : Quest) : Option Int :=
  (currentTeamVotingRound q).map (getStatusOn q)

/-- `isLastRoundOfTeamVoting()`:
`this._teamVotingRoundIndex === this._teamVoteRounds.length - 1`. -/
def isLastRoundOfTeamVoting (q : Quest) : Bool :=
  q.teamVotingRoundIndex == q.teamVoteRounds.length - 1

/-- `teamVotingRoundFinished()` evaluated on the current round `round`. -/
def teamVotingRoundFinishedOn (q : Quest) (round : List Vote) : Bool :=
  if teamVotingSucceededOn q round then true
  else
    match previousTeamVotingRound q with
    | none => false
    | some p => everybodyVotedFor q p && (round.length == 0)

/-- `teamVotingRoundFinished()`; `none` when reading the current round throws.
It is a pure query: the source method never assigns to any field. -/
def teamVotingRoundFinished (q : Quest) : Option Bool :=
  (currentTeamVotingRound q).map (teamVotingRoundFinishedOn q)

/-- `_alreadyVotedFor(votes, vote)`:
`!!votes.find(v => v.getUsername() === vote.getUsername())`. -/
def alreadyVotedFor (votes : List Vote) (vote : Vote) : Bool :=
  votes.any (fun v => v.username == vote.username)

/-- The errors `addVote` can throw: `AlreadyVotedForTeamError`,
`AlreadyVotedForQuestError` (from `errors.ts`), and the JavaScript
`TypeError` raised when the current-round read yields `undefined`. -/
inductive QuestError where
  | alreadyVotedForTeam
  | alreadyVotedForQuest
  | typeError
deriving DecidableEq, Repr

/-- `addVote(vote)`: routes to `_addVoteForTeam` when `teamVotingAllowed()`
and otherwise to `_addVoteForQuest`.  In the source every `throw` happens
before any mutation, so an `error` result leaves the quest exactly as it
was; `ok` carries the mutated quest.  `_addVoteForTeam` pushes onto the
current round and, when the round is full and `teamVotingSucceeded()` is
falsy, increments `_teamVotingRoundIndex`.  `_addVoteForQuest` pushes onto
`_questVotes` (it performs no `questVotingAllowed` check). -/
def addVote (q : Quest) (vote : Vote) : Except QuestError Quest :=
  match currentTeamVotingRound q with
  | none => .error .typeError
  | some round =>
    if teamVotingAllowedOn q round then
      if alreadyVotedFor round vote then .error .alreadyVotedForTeam
      else
        let round' := round ++ [vote]
        let q' : Quest :=
          { q with teamVoteRounds := q.teamVoteRounds.set q.teamVotingRoundIndex round' }
        if everybodyVotedFor q' round' && ! teamVotingSucceededOn q' round' then
          .ok { q' with teamVotingRoundIndex := q'.teamVotingRoundIndex + 1 }
        else .ok q'
    else
      if alreadyVotedFor q.questVotes vote then .error .alreadyVotedForQuest
      else .ok { q with questVotes := q.questVotes ++ [vote] }

/-- Folds a list of votes through `addVote`, stopping at the first thrown
error (helper for stating concrete runs of the class API). -/
def addVotes (q : Quest) : List Vote → Except QuestError Quest
  | [] => .ok q
  | v :: vs =>
    match addVote q v with
    | .error e => .error e
    | .ok q' => addVotes q' vs

/-- Shape returned by `Vote.serialize()`. -/
structure SerializedVote where
  username : String
  value : Bool
deriving DecidableEq, Repr

/-- `Vote.serialize()`: returns the same (username, value) shape. -/
def Vote.serialize (v : Vote) : SerializedVote :=
  { username := v.username, value := v.value }

/-- Shape returned by `Quest.serialize()`: exactly the four fields the
source object literal contains. -/
structure SerializedQuest where
  failsNeeded : Nat
  votesNeeded : Nat
  teamVotes : List SerializedVote
  questVotes : List SerializedVote
deriving DecidableEq, Repr

/-- `Quest.serialize()`: serialises `failsNeeded`, `votesNeeded`, the votes
of the current team-voting round, and the quest votes; `none` when reading
the current round throws. -/
def Quest.serialize (q : Quest) : Option SerializedQuest :=
  (currentTeamVotingRound q).map fun round =>
    { failsNeeded := q.failsNeeded
      votesNeeded := q.votesNeeded
      teamVotes := round.map Vote.serialize
      questVotes := q.questVotes.map Vote.serialize }

instance {ε α : Type} [DecidableEq ε] [DecidableEq α] : DecidableEq (Except ε α) := fun a b =>
  match a, b with
  | .error e, .error e' =>
    if h : e = e' then .isTrue (by rw [h]) else .isFalse (by intro hc; cases hc; exact h rfl)
  | .ok x, .ok y =>
    if h : x = y then .isTrue (by rw [h]) else .isFalse (by intro hc; cases hc; exact h rfl)
  | .error _, .ok _ => .isFalse (by intro hc; cases hc)
  | .ok _, .error _ => .isFalse (by intro hc; cases hc)

/-- Number of approving votes (used to phrase the spec's
"approve votes strictly outnumber the reject votes"). -/
def approveCount (votes : List Vote) : Nat :=
  votes.countP (fun v => v.value)

/-- Number of rejecting votes (the spec's "number of reject votes"). -/
def rejectCount (votes : List Vote) : Nat :=
  votes.countP (fun v => ! v.value)

/-- Quests reachable through the public API of the class: constructed by the
`Quest` constructor, then mutated by successful `addVote` calls (a thrown
error leaves the state unchanged, so errors do not add states). -/
inductive Reachable : Quest → Prop
  | mk (votesNeeded failsNeeded totalPlayers : Nat) :
      Reachable (mkQuest votesNeeded failsNeeded totalPlayers)
  | step {q q' : Quest} (v : Vote) :
      Reachable q → addVote q v = .ok q' → Reachable q'

/-- Invariant of a single team-voting round: it never holds more votes than
players, and a full round is always majority-approved (a rejected full round
is abandoned by the index bump inside the very `addVote` call that filled it). -/
def RoundInv (q : Quest) (round : List Vote) : Prop :=
  round.length ≤ q.totalPlayers ∧
    (round.length = q.totalPlayers → majorityApproved round = true)

/-- Data-model invariant of a reachable quest with at least one player. -/
def QuestInv (q : Quest) : Prop :=
  1 ≤ q.totalPlayers ∧
  q.teamVoteRounds.length = 5 ∧
  (∀ j, q.teamVotingRoundIndex < j →
    ∀ r, q.teamVoteRounds.get? j = some r → r = []) ∧
  (∀ r, currentTeamVotingRound q = some r → RoundInv q r)

/-- A one-player quest whose single team vote approved the team:
`addVote (mkQuest 1 1 1) ("a", approve)` produces it. -/
def questApproved11 : Quest :=
  { votesNeeded := 1, failsNeeded := 1, totalPlayers := 1,
    teamVoteRounds := [[⟨"a", true⟩], [], [], [], []],
    teamVotingRoundIndex := 0, questVotes := [] }

/-- Whether a previous round exists and is complete (the second disjunct of
`teamVotingRoundFinished()` apart from the emptiness of the current round). -/
def prevRoundComplete (q : Quest) : Bool :=
  match previousTeamVotingRound q with
  | none => false
  | some p => everybodyVotedFor q p

/-- Quests reachable when every `addVote` call is made only while team
voting or quest voting is allowed — the discipline the game layer follows
(`voteForQuest` checks `isAllowedToVoteForQuest` before delegating). -/
inductive GuardedReach : Quest → Prop
  | mk (votesNeeded failsNeeded totalPlayers : Nat) :
      GuardedReach (mkQuest votesNeeded failsNeeded totalPlayers)
  | step {q q' : Quest} {round : List Vote} (v : Vote) :
      GuardedReach q →
      currentTeamVotingRound q = some round →
      (teamVotingAllowedOn q round = true ∨ questVotingAllowedOn q round = true) →
      addVote q v = .ok q' →
      GuardedReach q'

/-- The quest state after `addVote` calls ("a",approve), ("b",approve),
("c",approve) on `mkQuest 1 1 1`: the quest votes OVERFILL `votesNeeded`. -/
def questOverfull : Quest :=
  { votesNeeded := 1, failsNeeded := 1, totalPlayers := 1,
    teamVoteRounds := [[⟨"a", true⟩], [], [], [], []],
    teamVotingRoundIndex := 0,
    questVotes := [⟨"b", true⟩, ⟨"c", true⟩] }

/-- A one-player quest with an approved team and a full quest vote list:
`getStatus` is terminal (`1`, succeeded). -/
def questDone : Quest :=
  { votesNeeded := 1, failsNeeded := 1, totalPlayers := 1,
    teamVoteRounds := [[⟨"a", true⟩], [], [], [], []],
    teamVotingRoundIndex := 0, questVotes := [⟨"b", true⟩] }

/-- `questDone` after one further (reject) quest vote: the status flips. -/
def questFlipped : Quest :=
  { votesNeeded := 1, failsNeeded := 1, totalPlayers := 1,
    teamVoteRounds := [[⟨"a", true⟩], [], [], [], []],
    teamVotingRoundIndex := 0, questVotes := [⟨"b", true⟩, ⟨"c", false⟩] }

/-- A quest standing in its second team-voting round after a fully rejected
first round. -/
def questSecondRound : Quest :=
  { votesNeeded := 1, failsNeeded := 1, totalPlayers := 1,
    teamVoteRounds := [[⟨"a", false⟩], [], [], [], []],
    teamVotingRoundIndex := 1, questVotes := [] }

/-- The `GameState` enum of `game-state-machine.ts`. -/
inductive GameState where
  | preparation
  | teamProposition
  | teamVoting
  | teamVotingPreApproved
  | questVoting
  | assassination
  | finish
deriving DecidableEq, Repr

/-- The transition table registered by `initTransitions()`, in source
order (`fsm.from(X).to(Y)`). -/
def machineTransitions : List (GameState × GameState) :=
  [(.preparation, .teamProposition),
   (.teamProposition, .teamVoting),
   (.teamProposition, .teamVotingPreApproved),
   (.teamVoting, .teamProposition),
   (.teamVoting, .questVoting),
   (.teamVotingPreApproved, .questVoting),
   (.questVoting, .teamProposition),
   (.questVoting, .assassination),
   (.questVoting, .finish),
   (.assassination, .finish)]

/-- The `TypeState.FiniteStateMachine` as the source configures it: a
current state, the registered transitions and the states that have `on`
listeners.  The listeners' timed side effects run against the game object
and are outside this model. -/
structure TSFsm where
  currentState : GameState
  transitions : List (GameState × GameState)
  onCallbacks : List GameState
deriving DecidableEq, Repr

/-- The failure `fsm.go` raises on a transition missing from the table
(the spec's `IllegalTransition`). -/
inductive FsmError where
  | illegalTransition
deriving DecidableEq, Repr

/-- Whether a registered transition leads from the current state to `s`. -/
def TSFsm.canGo (f : TSFsm) (s : GameState) : Bool :=
  f.transitions.contains (f.currentState, s)

/-- `fsm.go(state)`: moves to `state` along a registered transition and
otherwise fails with `IllegalTransition`. -/
def TSFsm.go (f : TSFsm) (s : GameState) : Except FsmError TSFsm :=
  if f.canGo s then .ok { f with currentState := s }
  else .error .illegalTransition

/-- The `GameStateTransitionWaitTimes` config of the machine. -/
structure GameStateTransitionWaitTimes where
  afterTeamProposition : Nat
  afterTeamVoting : Nat
  afterQuestVoting : Nat
deriving DecidableEq, Repr

/-- The `GameStateMachine` class state, generic over the game object it
holds.  `stateUpdatePending` stands for whether `stateUpdatePromise`
currently holds a pending promise. -/
structure GameStateMachine (γ : Type) where
  waitTimes : GameStateTransitionWaitTimes
  isInit : Bool
  fsm : Option TSFsm
  game : Option γ
  stateUpdatePending : Bool

/-- The `GameStateMachine` constructor (fields before `init`). -/
def mkGameStateMachine (γ : Type) (w : GameStateTransitionWaitTimes) :
    GameStateMachine γ :=
  { waitTimes := w, isInit := false, fsm := none, game := none,
    stateUpdatePending := false }

/-- The states `initTransitionListeners` attaches `fsm.on` handlers to,
in source order. -/
def listenerStates : List GameState :=
  [.teamProposition, .teamVoting, .teamVotingPreApproved, .questVoting,
   .assassination, .finish]

/-- `initTransitions()`: builds a fresh FSM starting in `Preparation`
and registers the transition table. -/
def initTransitions {γ : Type} (m : GameStateMachine γ) : GameStateMachine γ :=
  { m with fsm := some { currentState := .preparation,
                         transitions := machineTransitions,
                         onCallbacks := [] } }

/-- `initTransitionListeners(game)`: stores the game and registers the
six `fsm.on` listeners. -/
def initTransitionListeners {γ : Type} (m : GameStateMachine γ) (g : γ) :
    GameStateMachine γ :=
  { m with game := some g,
           fsm := m.fsm.map fun f =>
             { f with onCallbacks := f.onCallbacks ++ listenerStates } }

/-- `init(game)`: a guarded one-shot initialisation — it returns at once
when `isInit` is already set. -/
def GameStateMachine.init {γ : Type} (m : GameStateMachine γ) (g : γ) :
    GameStateMachine γ :=
  if m.isInit then m
  else initTransitionListeners (initTransitions { m with isInit := true }) g

mutual
/-- Values of the JavaScript object graph the snapshot constructor walks:
primitives, functions, promises (with their settlement flag, which the code
never inspects), `undefined`, plain objects (ordered fields) and arrays. -/
inductive JSVal where
  | prim : String → JSVal
  | func : JSVal
  | promise : Bool → JSVal
  | undef : JSVal
  | obj : JSObj → JSVal
  | arr : JSArr → JSVal
deriving DecidableEq, Repr
inductive JSObj where
  | nil : JSObj
  | cons : String → JSVal → JSObj → JSObj
deriving DecidableEq, Repr
inductive JSArr where
  | nil : JSArr
  | cons : JSVal → JSArr → JSArr
deriving DecidableEq, Repr
end

/-- The `GameState` constructor's iteratee:
`_.isFunction(val) || val instanceof Promise` — every promise matches,
settled or not. -/
def skipField : JSVal → Bool
  | .func => true
  | .promise _ => true
  | _ => false

/-- `_.isObject(v)`: true for objects, arrays and functions. -/
def isObjectLike : JSVal → Bool
  | .obj _ => true
  | .arr _ => true
  | .func => true
  | _ => false

/-- `k.replace(/_/, '')` on the character list: the regex is not anchored,
so the FIRST underscore anywhere in the key is removed. -/
def removeFirstUnderscore : List Char → List Char
  | [] => []
  | c :: rest => if c = '_' then rest else c :: removeFirstUnderscore rest

/-- `k.replace(/_/, '')`. -/
def stripFirstUnderscore (s : String) : String :=
  ⟨removeFirstUnderscore s.data⟩

/-- Keys of an object, in insertion order (`Object.keys`). -/
def jsKeys : JSObj → List String
  | .nil => []
  | .cons k _ rest => k :: jsKeys rest

/-- `obj[key]` — reading an own property; `none` is JavaScript `undefined`. -/
def jsGet : JSObj → String → Option JSVal
  | .nil, _ => none
  | .cons k v rest, key => if k = key then some v else jsGet rest key

/-- `delete obj[key]` — `_.unset(obj, k)` for a plain own-property name (the
walked graphs contain no lodash path syntax such as dots or brackets). -/
def jsUnset : JSObj → String → JSObj
  | .nil, _ => .nil
  | .cons k v rest, key =>
    if k = key then jsUnset rest key else .cons k v (jsUnset rest key)

/-- `obj[key] = v`: updates the value in place when the key is present and
appends the new key at the end otherwise — JavaScript insertion order for
plain string keys (integer-like keys do not occur in the walked graphs). -/
def jsSet : JSObj → String → JSVal → JSObj
  | .nil, key, v => .cons key v .nil
  | .cons k w rest, key, v =>
    if k = key then .cons k v rest else .cons k w (jsSet rest key v)

/-- Concatenation of two field lists (a proof-side helper). -/
def jsAppend : JSObj → JSObj → JSObj
  | .nil, b => b
  | .cons k v rest, b => .cons k v (jsAppend rest b)

/-- How the snapshot walk can fail: the JavaScript `TypeError` thrown when
an array index (a number, which has no `.replace`) reaches the rename step,
and `fuelOut`, an artefact of the embedding that `gameStateSnapshot` never
reaches (see `walkVal`). -/
inductive WalkError where
  | typeError
  | fuelOut
deriving DecidableEq, Repr

/-- The walk over an array: `_.unset` deletes each element — leaving an
`undefined` hole — before the iteratee check, so function and promise
elements are skipped as holes, and the first element that is neither
reaches `k.replace` with a numeric `k` and throws. -/
def walkArr : JSArr → Except WalkError JSArr
  | .nil => .ok .nil
  | .cons v rest =>
    if skipField v then (walkArr rest).map (JSArr.cons .undef)
    else .error .typeError

/-- One in-place pass of `_omitUselessFields` over an object, given the
walker `wv` for nested values.  As in lodash's `baseFor`, the key list
`props` is captured once up front while `iterable[key]` is re-read at every
iteration from the EVOLVING object `st` — so after a stripped key collided
with a later key, that later iteration sees the overwritten (already
walked) value, exactly as the mutating source does.  Each iteration unsets
the key, skips function/promise values, and re-adds the value under the
stripped key; for `_.isObject` values the recursion mutates the value the
object now holds, so the stored value is the walked one. -/
def walkFieldsWith (wv : JSVal → Except WalkError JSVal) :
    List String → JSObj → Except WalkError JSObj
  | [], st => .ok st
  | k :: props, st =>
    let v := (jsGet st k).getD .undef
    let st1 := jsUnset st k
    if skipField v then walkFieldsWith wv props st1
    else if isObjectLike v then
      match wv v with
      | .error e => .error e
      | .ok w => walkFieldsWith wv props (jsSet st1 (stripFirstUnderscore k) w)
    else
      walkFieldsWith wv props (jsSet st1 (stripFirstUnderscore k) v)

/-- `_omitUselessFields` on a nested value, with `fuel` bounding only the
DEPTH of nested object walks.  A nested walk always processes a value
stored inside the current object, and walking never increases a value's
depth, so below a call carrying `depthObj o` every nested walk has fuel to
spare — including re-walks of already-walked values after a stripped-key
collision — and `.fuelOut` is unreachable from `gameStateSnapshot`. -/
def walkVal : Nat → JSVal → Except WalkError JSVal
  | 0, _ => .error .fuelOut
  | fuel + 1, .obj o => (walkFieldsWith (walkVal fuel) (jsKeys o) o).map JSVal.obj
  | _ + 1, .arr a => (walkArr a).map JSVal.arr
  | _ + 1, v => .ok v

/-- `_omitUselessFields(obj, iteratee)` at a given nesting budget. -/
def walkFields (fuel : Nat) : List String → JSObj → Except WalkError JSObj :=
  walkFieldsWith (walkVal fuel)

mutual
/-- Nesting depth of a value — the fuel `gameStateSnapshot` supplies. -/
def depthVal : JSVal → Nat
  | .obj o => depthObj o + 1
  | _ => 1
def depthObj : JSObj → Nat
  | .nil => 0
  | .cons _ v rest => max (depthVal v) (depthObj rest)
end

/-- `new GameState(obj)._data`: `Object.assign({}, _.cloneDeep(obj))`
followed by the in-place `_omitUselessFields` walk.  `_.cloneDeep` is the
identity on the value TREE; two fields of the cloned graph sharing one
reference (`cloneDeep` preserves sharing, and the walk would then strip the
shared object once per referencing field) is not representable in a tree,
so the model covers the alias-free graphs. -/
def gameStateSnapshot (o : JSObj) : Except WalkError JSObj :=
  walkFields (depthObj o) (jsKeys o) o

mutual
/-- The amended snapshot contract, written from the spec's words: drop
function- and promise-valued fields, remove the first underscore of each
remaining field name, recurse into plain objects; an array survives only
when every element is dropped (becoming `undefined` holes) — any other
element makes the walk fail. -/
def cleanSnapshotVal : JSVal → Except WalkError JSVal
  | .obj o => (cleanSnapshotObj o).map JSVal.obj
  | .arr a => (cleanSnapshotArr a).map JSVal.arr
  | v => .ok v
def cleanSnapshotObj : JSObj → Except WalkError JSObj
  | .nil => .ok .nil
  | .cons k v rest =>
    if skipField v then cleanSnapshotObj rest
    else
      match cleanSnapshotVal v, cleanSnapshotObj rest with
      | .ok vc, .ok rc => .ok (.cons (stripFirstUnderscore k) vc rc)
      | .error e, _ => .error e
      | _, .error e => .error e
def cleanSnapshotArr : JSArr → Except WalkError JSArr
  | .nil => .ok .nil
  | .cons v rest =>
    if skipField v then (cleanSnapshotArr rest).map (JSArr.cons .undef)
    else .error .typeError
end

/-- Stripped names of the fields the walk keeps, in order. -/
def keptStrippedKeys : JSObj → List String
  | .nil => []
  | .cons k v rest =>
    if skipField v then keptStrippedKeys rest
    else stripFirstUnderscore k :: keptStrippedKeys rest

mutual
/-- The collision-freedom under which the in-place walk coincides with the
filter-rename-recurse reading: keys are unique (as in any JavaScript
object), and no stripped name of a kept field equals a later original key
or another kept field's stripped name — otherwise the walk overwrites a
field and re-walks its value (see `snapshot_counterexample`). -/
def noCollisionVal : JSVal → Bool
  | .obj o => noCollisionObj o
  | _ => true
def noCollisionObj : JSObj → Bool
  | .nil => true
  | .cons k v rest =>
    ! decide (k ∈ jsKeys rest) &&
    (if skipField v then noCollisionObj rest
     else
       ! decide (stripFirstUnderscore k ∈ jsKeys rest) &&
       ! decide (stripFirstUnderscore k ∈ keptStrippedKeys rest) &&
       noCollisionVal v && noCollisionObj rest)
end

mutual
/-- A "plain tree": no function and no promise survives anywhere. -/
def plainVal : JSVal → Bool
  | .func => false
  | .promise _ => false
  | .obj o => plainObj o
  | .arr a => plainArr a
  | _ => true
def plainObj : JSObj → Bool
  | .nil => true
  | .cons _ v rest => plainVal v && plainObj rest
def plainArr : JSArr → Bool
  | .nil => true
  | .cons v rest => plainVal v && plainArr rest
end

/-- Every field whose key is not scheduled for processing is already plain
(the loop invariant of the plainness proof). -/
def plainOutside (props : List String) : JSObj → Bool
  | .nil => true
  | .cons k v rest => (decide (k ∈ props) || plainVal v) && plainOutside props rest

/-- Plainness of a walk result (nothing to check on a thrown error). -/
def exceptPlain : Except WalkError JSObj → Bool
  | .ok w => plainObj w
  | .error _ => true

theorem failsCount_go (votes : List Vote) (acc : Nat) :
    votes.foldl (fun acc v => if v.value then acc else acc + 1) acc =
      acc + rejectCount votes := by
  induction votes generalizing acc with
  | nil => simp [rejectCount]
  | cons v vs ih =>
    simp only [List.foldl_cons, rejectCount, List.countP_cons]
    rcases hv : v.value with _ | _ <;>
      simp [hv, ih, rejectCount, Nat.add_assoc, Nat.add_comm]

/-- The source's fold `_failsCount` counts exactly the rejecting votes. -/
theorem failsCount_eq_rejectCount (votes : List Vote) :
    failsCount votes = rejectCount votes := by
  simpa using failsCount_go votes 0

theorem approveCount_add_rejectCount (votes : List Vote) :
    approveCount votes + rejectCount votes = votes.length := by
  induction votes with
  | nil => simp [approveCount, rejectCount]
  | cons v vs ih =>
    simp only [approveCount, rejectCount, List.countP_cons, List.length_cons] at *
    rcases hv : v.value with _ | _ <;> simp [hv] <;> omega

/-- `Math.ceil(len / 2)` majority test unfolded: the fails are a strict
minority exactly when the approvals strictly outnumber the rejections. -/
theorem majorityApproved_iff (round : List Vote) :
    majorityApproved round = true ↔ rejectCount round < approveCount round := by
  have hsum := approveCount_add_rejectCount round
  simp only [majorityApproved, failsCount_eq_rejectCount, decide_eq_true_eq]
  omega

theorem failsCount_append (votes : List Vote) (v : Vote) :
    failsCount (votes ++ [v]) =
      failsCount votes + (if v.value then 0 else 1) := by
  simp only [failsCount_eq_rejectCount, rejectCount, List.countP_append,
    List.countP_cons, List.countP_nil]
  rcases hv : v.value with _ | _ <;> simp [hv]

/-! ### Reachability through the class API and the data-model invariants -/

theorem addVote_config {q q' : Quest} {v : Vote} (h : addVote q v = .ok q') :
    q'.votesNeeded = q.votesNeeded ∧ q'.failsNeeded = q.failsNeeded ∧
      q'.totalPlayers = q.totalPlayers := by
  unfold addVote at h
  rcases hc : currentTeamVotingRound q with _ | round <;> rw [hc] at h
  · exact absurd h (by simp)
  · dsimp only at h
    split at h
    · split at h
      · exact absurd h (by simp)
      · split at h <;> (cases h; exact ⟨rfl, rfl, rfl⟩)
    · split at h
      · exact absurd h (by simp)
      · cases h; exact ⟨rfl, rfl, rfl⟩

theorem questInv_init {votesNeeded failsNeeded totalPlayers : Nat}
    (hT : 1 ≤ totalPlayers) : QuestInv (mkQuest votesNeeded failsNeeded totalPlayers) := by
  refine ⟨hT, rfl, ?_, ?_⟩
  · intro j hj r hr
    simp only [mkQuest] at hr
    rcases j with _ | _ | _ | _ | _ | j <;> simp_all [List.get?]
  · intro r hr
    simp only [mkQuest, currentTeamVotingRound, List.get?] at hr
    cases hr
    exact ⟨by simp [mkQuest], by intro h; simp only [mkQuest, List.length_nil] at h; omega⟩

theorem current_lt {q : Quest} {r : List Vote}
    (hc : currentTeamVotingRound q = some r) :
    q.teamVotingRoundIndex < q.teamVoteRounds.length := by
  by_contra hge
  rw [currentTeamVotingRound, List.get?_eq_none.mpr (by omega)] at hc
  cases hc

/-- Unfolded description of `addVote` given the current round: the index
bump happens exactly when the pushed vote completes the round and the
majority rejected it. -/
theorem addVote_eq (q : Quest) (v : Vote) (round : List Vote)
    (hc : currentTeamVotingRound q = some round) :
    addVote q v =
      if teamVotingAllowedOn q round then
        if alreadyVotedFor round v then .error .alreadyVotedForTeam
        else
          if (round ++ [v]).length = q.totalPlayers ∧
              majorityApproved (round ++ [v]) = false then
            .ok { q with
                  teamVoteRounds :=
                    q.teamVoteRounds.set q.teamVotingRoundIndex (round ++ [v])
                  teamVotingRoundIndex := q.teamVotingRoundIndex + 1 }
          else
            .ok { q with
                  teamVoteRounds :=
                    q.teamVoteRounds.set q.teamVotingRoundIndex (round ++ [v]) }
      else
        if alreadyVotedFor q.questVotes v then .error .alreadyVotedForQuest
        else .ok { q with questVotes := q.questVotes ++ [v] } := by
  unfold addVote
  rw [hc]
  dsimp only
  refine if_congr Iff.rfl (if_congr Iff.rfl rfl (if_congr ?_ rfl rfl)) rfl
  by_cases h1 : (round ++ [v]).length = q.totalPlayers
  · have h2 : ¬ ((round ++ [v]).length < q.totalPlayers) := by omega
    rcases hm : majorityApproved (round ++ [v]) with _ | _ <;>
      simp [everybodyVotedFor, teamVotingSucceededOn, teamVotingAllowedOn, h1, h2, hm]
  · have h1' : round.length + 1 ≠ q.totalPlayers := by simpa using h1
    simp [everybodyVotedFor, h1']

theorem questInv_preserved {q q' : Quest} {v : Vote}
    (hInv : QuestInv q) (h : addVote q v = .ok q') : QuestInv q' := by
  obtain ⟨hT, hlen5, hEmpty, hCur⟩ := hInv
  rcases hc : currentTeamVotingRound q with _ | round
  · rw [addVote, hc] at h; cases h
  have hidx : q.teamVotingRoundIndex < q.teamVoteRounds.length := current_lt hc
  obtain ⟨hrlen, hrmaj⟩ := hCur round hc
  rw [addVote_eq q v round hc] at h
  split at h
  case isTrue hA =>
    split at h
    case isTrue => cases h
    case isFalse hdup =>
      have hlt : round.length < q.totalPlayers := by
        rcases Nat.lt_or_ge round.length q.totalPlayers with hl | hg
        · exact hl
        · exfalso
          have heq : round.length = q.totalPlayers := Nat.le_antisymm hrlen hg
          have hmaj := hrmaj heq
          simp [teamVotingAllowedOn, hmaj, heq] at hA
      split at h
      case isTrue hguard =>
        cases h
        refine ⟨hT, by simpa using hlen5, ?_, ?_⟩
        · intro j hj r hr
          have hj1 : q.teamVotingRoundIndex + 1 < j := hj
          have hr1 : (q.teamVoteRounds.set q.teamVotingRoundIndex
              (round ++ [v])).get? j = some r := hr
          rw [List.get?_set_of_lt' _ _ hidx, if_neg (by omega)] at hr1
          exact hEmpty j (by omega) r hr1
        · intro r hr
          have hr1 : (q.teamVoteRounds.set q.teamVotingRoundIndex
              (round ++ [v])).get? (q.teamVotingRoundIndex + 1) = some r := hr
          rw [List.get?_set_of_lt' _ _ hidx, if_neg (by omega)] at hr1
          have hempty : r = [] :=
            hEmpty (q.teamVotingRoundIndex + 1) (by omega) r hr1
          subst hempty
          refine ⟨Nat.zero_le _, fun hz => ?_⟩
          have hz1 : 0 = q.totalPlayers := hz
          exact absurd hz1 (by omega)
      case isFalse hguard =>
        cases h
        refine ⟨hT, by simpa using hlen5, ?_, ?_⟩
        · intro j hj r hr
          have hj1 : q.teamVotingRoundIndex < j := hj
          have hr1 : (q.teamVoteRounds.set q.teamVotingRoundIndex
              (round ++ [v])).get? j = some r := hr
          rw [List.get?_set_of_lt' _ _ hidx, if_neg (by omega)] at hr1
          exact hEmpty j (by omega) r hr1
        · intro r hr
          have hr1 : (q.teamVoteRounds.set q.teamVotingRoundIndex
              (round ++ [v])).get? q.teamVotingRoundIndex = some r := hr
          rw [List.get?_set_of_lt' _ _ hidx, if_pos rfl] at hr1
          cases hr1
          refine ⟨?_, fun hlenT => ?_⟩
          · show (round ++ [v]).length ≤ q.totalPlayers
            simp only [List.length_append, List.length_cons, List.length_nil]
            omega
          · have hlenT1 : (round ++ [v]).length = q.totalPlayers := hlenT
            rcases hm : majorityApproved (round ++ [v]) with _ | _
            · exact absurd ⟨hlenT1, hm⟩ hguard
            · rfl
  case isFalse hA =>
    split at h
    case isTrue => cases h
    case isFalse =>
      cases h
      refine ⟨hT, hlen5, ?_, ?_⟩
      · intro j hj r hr
        exact hEmpty j hj r hr
      · intro r hr
        exact hCur r hr

/-- Every quest reachable through the class API with at least one player
satisfies the data-model invariant. -/
theorem reachable_inv {q : Quest} (hre : Reachable q)
    (hT : 1 ≤ q.totalPlayers) : QuestInv q := by
  induction hre with
  | mk V F T => exact questInv_init hT
  | step v hre hstep ih =>
    have hcfg := addVote_config hstep
    exact questInv_preserved (ih (by omega)) hstep

theorem getStatusOn_eq_neg_one (q : Quest) (round : List Vote) :
    getStatusOn q round = -1 ↔
      (teamVotingAllowedOn q round = true ∨ questVotingAllowedOn q round = true) := by
  rw [getStatusOn]
  split_ifs with h1 h2 <;> simp_all

theorem getStatusOn_terminal (q : Quest) (round : List Vote)
    (hA : teamVotingAllowedOn q round = false)
    (hQ : questVotingAllowedOn q round = false) :
    getStatusOn q round =
      if q.failsNeeded ≤ rejectCount q.questVotes then 0 else 1 := by
  rw [getStatusOn, hA, hQ]
  simp only [Bool.or_self, Bool.false_eq_true, if_false, questVotingFailedFlag,
    decide_eq_true_eq, failsCount_eq_rejectCount]
  split_ifs <;> omega

/-- C1: `getStatus()` is `-1` exactly while team voting or quest voting is
still allowed; once neither is allowed it is `0` precisely when the number
of reject quest votes has reached `failsNeeded`, and `1` otherwise. -/
theorem quest_getStatus_spec (q : Quest) (round : List Vote)
    (hc : currentTeamVotingRound q = some round) :
    (getStatus q = some (-1) ↔
      (teamVotingAllowedOn q round = true ∨ questVotingAllowedOn q round = true)) ∧
    (teamVotingAllowedOn q round = false → questVotingAllowedOn q round = false →
      getStatus q = some (if q.failsNeeded ≤ rejectCount q.questVotes then 0 else 1)) := by
  have hg : getStatus q = some (getStatusOn q round) := by rw [getStatus, hc]; rfl
  refine ⟨?_, fun hA hQ => ?_⟩
  · rw [hg, Option.some_inj]
    exact getStatusOn_eq_neg_one q round
  · rw [hg, getStatusOn_terminal q round hA hQ]

/-- Witness for the C1 theorem at a freshly constructed quest. -/
theorem quest_getStatus_spec_witness :
    currentTeamVotingRound (mkQuest 2 1 1) = some [] ∧
    ((getStatus (mkQuest 2 1 1) = some (-1) ↔
      (teamVotingAllowedOn (mkQuest 2 1 1) [] = true ∨
        questVotingAllowedOn (mkQuest 2 1 1) [] = true)) ∧
    (teamVotingAllowedOn (mkQuest 2 1 1) [] = false →
      questVotingAllowedOn (mkQuest 2 1 1) [] = false →
      getStatus (mkQuest 2 1 1) =
        some (if (mkQuest 2 1 1).failsNeeded ≤
            rejectCount (mkQuest 2 1 1).questVotes then 0 else 1))) :=
  ⟨rfl, quest_getStatus_spec (mkQuest 2 1 1) [] rfl⟩

/-- C2: on every quest reachable through the class API (with at least one
player), `teamVotingSucceeded()` is true exactly when the current round
holds exactly `totalPlayers` votes and the approvals strictly outnumber
the rejections. -/
theorem teamVotingSucceeded_spec (q : Quest) (round : List Vote)
    (hre : Reachable q) (hT : 1 ≤ q.totalPlayers)
    (hc : currentTeamVotingRound q = some round) :
    teamVotingSucceeded q = some true ↔
      (round.length = q.totalPlayers ∧ rejectCount round < approveCount round) := by
  obtain ⟨-, -, -, hCur⟩ := reachable_inv hre hT
  obtain ⟨hrlen, -⟩ := hCur round hc
  have hg : teamVotingSucceeded q = some (teamVotingSucceededOn q round) := by
    rw [teamVotingSucceeded, hc]; rfl
  rw [hg, Option.some_inj, teamVotingSucceededOn, teamVotingAllowedOn]
  simp only [Bool.and_eq_true, Bool.not_eq_true', Bool.or_eq_false_iff,
    decide_eq_false_iff_not, Bool.not_eq_false', majorityApproved_iff]
  constructor
  · rintro ⟨⟨h1, h2⟩, h3⟩
    exact ⟨by omega, h3⟩
  · rintro ⟨h1, h2⟩
    exact ⟨⟨by omega, h2⟩, h2⟩

/-- Witness for the C2 theorem at a quest whose full round was approved. -/
theorem teamVotingSucceeded_spec_witness :
    Reachable questApproved11 ∧ 1 ≤ questApproved11.totalPlayers ∧
    currentTeamVotingRound questApproved11 = some [⟨"a", true⟩] ∧
    (teamVotingSucceeded questApproved11 = some true ↔
      ([(⟨"a", true⟩ : Vote)].length = questApproved11.totalPlayers ∧
        rejectCount [⟨"a", true⟩] < approveCount [⟨"a", true⟩])) :=
  ⟨Reachable.step ⟨"a", true⟩ (Reachable.mk 1 1 1) (by decide), by decide, rfl,
    teamVotingSucceeded_spec questApproved11 [⟨"a", true⟩]
      (Reachable.step ⟨"a", true⟩ (Reachable.mk 1 1 1) (by decide)) (by decide) rfl⟩

/-- C3 counterexample: on a quest whose full current round was APPROVED,
`teamVotingRoundFinished()` nevertheless returns `true`, although the
round was not rejected (the claim's "complete AND majority rejected" is
false there).  The method is also a pure query and mutates nothing. -/
theorem teamVotingRoundFinished_counterexample :
    teamVotingRoundFinished questApproved11 = some true ∧
    currentTeamVotingRound questApproved11 = some [⟨"a", true⟩] ∧
    rejectCount [(⟨"a", true⟩ : Vote)] < approveCount [(⟨"a", true⟩ : Vote)] := by
  decide

/-- C3 amended: `teamVotingRoundFinished()` is true exactly when team voting
succeeded, or when a complete previous round exists while the current round
is empty; and it is `_addVoteForTeam` (not this method) that increments
`teamVotingRoundIndex`, exactly when the added vote completes the current
round and the majority rejected it. -/
theorem teamVotingRoundFinished_spec (q : Quest) (round : List Vote)
    (v : Vote) (q' : Quest)
    (hc : currentTeamVotingRound q = some round)
    (hstep : addVote q v = .ok q') :
    (teamVotingRoundFinished q = some true ↔
      (teamVotingSucceededOn q round = true ∨
        (prevRoundComplete q = true ∧ round.length = 0))) ∧
    (q'.teamVotingRoundIndex = q.teamVotingRoundIndex + 1 ↔
      (teamVotingAllowedOn q round = true ∧ alreadyVotedFor round v = false ∧
        (round ++ [v]).length = q.totalPlayers ∧
        majorityApproved (round ++ [v]) = false)) := by
  constructor
  · have hg : teamVotingRoundFinished q = some (teamVotingRoundFinishedOn q round) := by
      rw [teamVotingRoundFinished, hc]; rfl
    rw [hg, Option.some_inj, teamVotingRoundFinishedOn, prevRoundComplete]
    rcases hs : teamVotingSucceededOn q round with _ | _
    · rcases hp : previousTeamVotingRound q with _ | p <;>
        simp [Bool.and_eq_true, beq_iff_eq]
    · simp
  · rw [addVote_eq q v round hc] at hstep
    split at hstep
    case isTrue hA =>
      split at hstep
      case isTrue hd => cases hstep
      case isFalse hd =>
        have hd0 : alreadyVotedFor round v = false := by
          rcases hb : alreadyVotedFor round v with _ | _
          · rfl
          · exact absurd hb hd
        split at hstep
        case isTrue hguard =>
          cases hstep
          simp only [true_iff, Nat.succ.injEq]
          exact ⟨hA, hd0, hguard.1, hguard.2⟩
        case isFalse hguard =>
          cases hstep
          constructor
          · intro hx
            have hx1 : q.teamVotingRoundIndex = q.teamVotingRoundIndex + 1 := hx
            omega
          · rintro ⟨-, -, h3, h4⟩
            exact absurd ⟨h3, h4⟩ hguard
    case isFalse hA =>
      split at hstep
      case isTrue hd => cases hstep
      case isFalse hd =>
        cases hstep
        constructor
        · intro hx
          have hx1 : q.teamVotingRoundIndex = q.teamVotingRoundIndex + 1 := hx
          omega
        · rintro ⟨h1, -⟩
          exact absurd h1 hA

/-- Witness for the C3 theorem: a two-player quest receiving its first
team vote (the round neither completes nor advances). -/
theorem teamVotingRoundFinished_spec_witness :
    currentTeamVotingRound (mkQuest 2 1 2) = some [] ∧
    addVote (mkQuest 2 1 2) ⟨"a", true⟩ =
      .ok { votesNeeded := 2, failsNeeded := 1, totalPlayers := 2,
            teamVoteRounds := [[⟨"a", true⟩], [], [], [], []],
            teamVotingRoundIndex := 0, questVotes := [] } ∧
    ((teamVotingRoundFinished (mkQuest 2 1 2) = some true ↔
      (teamVotingSucceededOn (mkQuest 2 1 2) [] = true ∨
        (prevRoundComplete (mkQuest 2 1 2) = true ∧ List.length ([] : List Vote) = 0))) ∧
    (Quest.teamVotingRoundIndex
        { votesNeeded := 2, failsNeeded := 1, totalPlayers := 2,
          teamVoteRounds := [[⟨"a", true⟩], [], [], [], []],
          teamVotingRoundIndex := 0, questVotes := [] } =
        (mkQuest 2 1 2).teamVotingRoundIndex + 1 ↔
      (teamVotingAllowedOn (mkQuest 2 1 2) [] = true ∧
        alreadyVotedFor [] ⟨"a", true⟩ = false ∧
        ([] ++ [(⟨"a", true⟩ : Vote)]).length = (mkQuest 2 1 2).totalPlayers ∧
        majorityApproved ([] ++ [⟨"a", true⟩]) = false))) :=
  ⟨rfl, by decide,
    teamVotingRoundFinished_spec (mkQuest 2 1 2) [] ⟨"a", true⟩
      { votesNeeded := 2, failsNeeded := 1, totalPlayers := 2,
        teamVoteRounds := [[⟨"a", true⟩], [], [], [], []],
        teamVotingRoundIndex := 0, questVotes := [] } rfl (by decide)⟩

/-- C4 counterexample: three `addVote` calls with fresh usernames drive
`questVotes.length` past `votesNeeded` (`addVote` never checks
`questVotingAllowed`), refuting the invariant for arbitrary call sequences. -/
theorem addVote_overfill_counterexample :
    addVotes (mkQuest 1 1 1) [⟨"a", true⟩, ⟨"b", true⟩, ⟨"c", true⟩] =
      .ok questOverfull ∧
    questOverfull.votesNeeded < questOverfull.questVotes.length := by
  decide

/-- C4 amended: along every sequence of `addVote` calls made only while
team voting or quest voting is allowed, `questVotes.length ≤ votesNeeded`
holds after each call. -/
theorem guarded_questVotes_le (q : Quest) (hre : GuardedReach q) :
    q.questVotes.length ≤ q.votesNeeded := by
  induction hre with
  | mk V F T => exact Nat.zero_le _
  | step v hre hc hallow hstep ih =>
    rename_i q q' round
    rw [addVote_eq _ v _ hc] at hstep
    split at hstep
    case isTrue hA =>
      split at hstep
      case isTrue => cases hstep
      case isFalse =>
        split at hstep <;> (cases hstep; exact ih)
    case isFalse hA =>
      split at hstep
      case isTrue => cases hstep
      case isFalse =>
        cases hstep
        rcases hallow with h | h
        · exact absurd h hA
        · rw [questVotingAllowedOn, Bool.and_eq_true, decide_eq_true_eq] at h
          obtain ⟨-, hlt⟩ := h
          show (q.questVotes ++ [v]).length ≤ q.votesNeeded
          simp only [List.length_append, List.length_cons, List.length_nil]
          omega

/-- Witness for the amended C4 theorem after one guarded team vote. -/
theorem guarded_questVotes_le_witness :
    GuardedReach questApproved11 ∧
    questApproved11.questVotes.length ≤ questApproved11.votesNeeded :=
  ⟨GuardedReach.step ⟨"a", true⟩ (GuardedReach.mk 1 1 1) rfl
      (Or.inl (by decide)) (by decide),
    guarded_questVotes_le questApproved11
      (GuardedReach.step ⟨"a", true⟩ (GuardedReach.mk 1 1 1) rfl
        (Or.inl (by decide)) (by decide))⟩

/-- C5 counterexample: a quest whose status is terminal (`1`) accepts a
further `addVote` with a fresh username and a reject value, after which
`getStatus()` returns `0` — the terminal value changed. -/
theorem status_flip_counterexample :
    getStatus questDone = some 1 ∧
    addVote questDone ⟨"c", false⟩ = .ok questFlipped ∧
    getStatus questFlipped = some 0 := by
  decide

/-- C5 amended: once `getStatus()` is terminal, every further successful
`addVote` keeps it terminal — it never returns to `-1` — and a status of
`0` never changes; only `1` can still turn into `0`, because
`_addVoteForQuest` accepts reject votes beyond `votesNeeded`. -/
theorem status_terminal_spec (q : Quest) (round : List Vote) (v : Vote) (q' : Quest)
    (hc : currentTeamVotingRound q = some round)
    (hterm : getStatusOn q round ≠ -1)
    (hstep : addVote q v = .ok q') :
    currentTeamVotingRound q' = some round ∧
    getStatus q' = some (getStatusOn q' round) ∧
    getStatusOn q' round ≠ -1 ∧
    (getStatusOn q round = 0 → getStatusOn q' round = 0) := by
  rw [Ne, getStatusOn_eq_neg_one] at hterm
  push_neg at hterm
  obtain ⟨hA0, hQ0⟩ := hterm
  have hA : teamVotingAllowedOn q round = false := by
    rcases hb : teamVotingAllowedOn q round with _ | _
    · rfl
    · exact absurd hb hA0
  have hQ : questVotingAllowedOn q round = false := by
    rcases hb : questVotingAllowedOn q round with _ | _
    · rfl
    · exact absurd hb hQ0
  have hA2 := hA
  rw [teamVotingAllowedOn, Bool.or_eq_false_iff] at hA2
  obtain ⟨hlen2, hmaj2⟩ := hA2
  have hmaj : majorityApproved round = true := by
    rcases hb : majorityApproved round with _ | _
    · rw [hb] at hmaj2; cases hmaj2
    · rfl
  have hsuc : teamVotingSucceededOn q round = true := by
    rw [teamVotingSucceededOn, hA, hmaj]; rfl
  have hVle : q.votesNeeded ≤ q.questVotes.length := by
    rw [questVotingAllowedOn, hsuc, Bool.true_and, decide_eq_false_iff_not] at hQ
    omega
  rw [addVote_eq q v round hc] at hstep
  split at hstep
  case isTrue h => rw [hA] at h; cases h
  case isFalse h =>
    split at hstep
    case isTrue => cases hstep
    case isFalse hd =>
      cases hstep
      have hc' : currentTeamVotingRound
          { q with questVotes := q.questVotes ++ [v] } = some round := hc
      have hA' : teamVotingAllowedOn
          { q with questVotes := q.questVotes ++ [v] } round = false := hA
      have hsuc' : teamVotingSucceededOn
          { q with questVotes := q.questVotes ++ [v] } round = true := hsuc
      have hQ' : questVotingAllowedOn
          { q with questVotes := q.questVotes ++ [v] } round = false := by
        have hun : questVotingAllowedOn { q with questVotes := q.questVotes ++ [v] } round
            = (teamVotingSucceededOn q round &&
                decide ((q.questVotes ++ [v]).length < q.votesNeeded)) := rfl
        rw [hun, hsuc, Bool.true_and, decide_eq_false_iff_not]
        simp only [List.length_append, List.length_cons, List.length_nil]
        omega
      refine ⟨hc', by rw [getStatus, hc']; rfl, ?_, ?_⟩
      · rw [Ne, getStatusOn_eq_neg_one]
        rintro (hx | hx)
        · rw [hA'] at hx; cases hx
        · rw [hQ'] at hx; cases hx
      · intro h0
        rw [getStatusOn, hA, hQ] at h0
        simp only [Bool.or_self, Bool.false_eq_true, if_false] at h0
        have hflag : questVotingFailedFlag q = false := by
          rcases hb : questVotingFailedFlag q with _ | _
          · rfl
          · rw [hb] at h0; exact absurd h0 (by decide)
        rw [getStatusOn, hA', hQ']
        simp only [Bool.or_self, Bool.false_eq_true, if_false]
        have hflag' : questVotingFailedFlag
            { q with questVotes := q.questVotes ++ [v] } = false := by
          have hun : questVotingFailedFlag { q with questVotes := q.questVotes ++ [v] }
              = decide (failsCount (q.questVotes ++ [v]) < q.failsNeeded) := rfl
          rw [questVotingFailedFlag, decide_eq_false_iff_not] at hflag
          rw [hun, decide_eq_false_iff_not, failsCount_append]
          rcases hv : v.value with _ | _ <;> simp [hv] <;> omega
        rw [hflag']
        rfl

/-- Witness for the C5 theorem at the terminal quest `questDone`. -/
theorem status_terminal_spec_witness :
    currentTeamVotingRound questDone = some [⟨"a", true⟩] ∧
    getStatusOn questDone [⟨"a", true⟩] ≠ -1 ∧
    addVote questDone ⟨"c", false⟩ = .ok questFlipped ∧
    (currentTeamVotingRound questFlipped = some [⟨"a", true⟩] ∧
      getStatus questFlipped = some (getStatusOn questFlipped [⟨"a", true⟩]) ∧
      getStatusOn questFlipped [⟨"a", true⟩] ≠ -1 ∧
      (getStatusOn questDone [⟨"a", true⟩] = 0 →
        getStatusOn questFlipped [⟨"a", true⟩] = 0)) :=
  ⟨rfl, by decide, by decide,
    status_terminal_spec questDone [⟨"a", true⟩] ⟨"c", false⟩ questFlipped
      rfl (by decide) (by decide)⟩

/-- C6: `addVote` throws `AlreadyVotedForTeamError` exactly when team voting
is in progress and the username already voted in the current round, and
`AlreadyVotedForQuestError` exactly when the quest phase is active and the
username already cast a quest vote.  In the source both `throw`s precede
every mutation, so an error result leaves the quest unchanged (the embedding
returns the untouched state implicitly by returning only the error). -/
theorem addVote_error_spec (q : Quest) (round : List Vote) (v : Vote)
    (hc : currentTeamVotingRound q = some round) :
    (addVote q v = .error .alreadyVotedForTeam ↔
      (teamVotingAllowedOn q round = true ∧ alreadyVotedFor round v = true)) ∧
    (addVote q v = .error .alreadyVotedForQuest ↔
      (teamVotingAllowedOn q round = false ∧
        alreadyVotedFor q.questVotes v = true)) := by
  rw [addVote_eq q v round hc]
  constructor
  · constructor
    · intro h
      split at h
      case isTrue hA =>
        split at h
        case isTrue hd => exact ⟨hA, hd⟩
        case isFalse hd => split at h <;> cases h
      case isFalse hA =>
        split at h
        case isTrue hd => cases h
        case isFalse hd => cases h
    · rintro ⟨hA, hd⟩
      rw [if_pos hA, if_pos hd]
  · constructor
    · intro h
      split at h
      case isTrue hA =>
        split at h
        case isTrue hd => cases h
        case isFalse hd => split at h <;> cases h
      case isFalse hA =>
        split at h
        case isTrue hd =>
          refine ⟨?_, hd⟩
          rcases hb : teamVotingAllowedOn q round with _ | _
          · rfl
          · exact absurd hb hA
        case isFalse hd => cases h
    · rintro ⟨hA, hd⟩
      rw [if_neg (by rw [hA]; exact Bool.false_ne_true), if_pos hd]

/-- Witness for the C6 theorem: a duplicate team vote by "a". -/
theorem addVote_error_spec_witness :
    currentTeamVotingRound questApproved11 = some [⟨"a", true⟩] ∧
    ((addVote questApproved11 ⟨"a", false⟩ = .error .alreadyVotedForTeam ↔
      (teamVotingAllowedOn questApproved11 [⟨"a", true⟩] = true ∧
        alreadyVotedFor [⟨"a", true⟩] ⟨"a", false⟩ = true)) ∧
    (addVote questApproved11 ⟨"a", false⟩ = .error .alreadyVotedForQuest ↔
      (teamVotingAllowedOn questApproved11 [⟨"a", true⟩] = false ∧
        alreadyVotedFor questApproved11.questVotes ⟨"a", false⟩ = true))) :=
  ⟨rfl, addVote_error_spec questApproved11 [⟨"a", true⟩] ⟨"a", false⟩ rfl⟩

/-- C9: `Quest.serialize()` returns exactly `failsNeeded`, `votesNeeded`,
the serialised current team-voting round and the serialised quest votes;
replacing every other (e.g. earlier, rejected) round leaves the output
unchanged, so those rounds are absent from it. -/
theorem quest_serialize_spec (q : Quest) (round : List Vote)
    (rounds2 : List (List Vote))
    (hc : currentTeamVotingRound q = some round)
    (hc2 : rounds2.get? q.teamVotingRoundIndex = some round) :
    q.serialize = some
      { failsNeeded := q.failsNeeded, votesNeeded := q.votesNeeded,
        teamVotes := round.map Vote.serialize,
        questVotes := q.questVotes.map Vote.serialize } ∧
    Quest.serialize { q with teamVoteRounds := rounds2 } = q.serialize := by
  have h1 : q.serialize = some
      { failsNeeded := q.failsNeeded, votesNeeded := q.votesNeeded,
        teamVotes := round.map Vote.serialize,
        questVotes := q.questVotes.map Vote.serialize } := by
    rw [Quest.serialize, hc]; rfl
  refine ⟨h1, ?_⟩
  have hc2' : currentTeamVotingRound { q with teamVoteRounds := rounds2 } =
      some round := hc2
  rw [Quest.serialize, hc2', h1]
  rfl

/-- Witness for the C9 theorem: dropping the rejected first round (and all
trailing empty rounds) from `questSecondRound` leaves `serialize` unchanged. -/
theorem quest_serialize_spec_witness :
    currentTeamVotingRound questSecondRound = some [] ∧
    ([[], []] : List (List Vote)).get? questSecondRound.teamVotingRoundIndex =
      some [] ∧
    (questSecondRound.serialize = some
      { failsNeeded := questSecondRound.failsNeeded,
        votesNeeded := questSecondRound.votesNeeded,
        teamVotes := List.map Vote.serialize [],
        questVotes := questSecondRound.questVotes.map Vote.serialize } ∧
    Quest.serialize { questSecondRound with teamVoteRounds := [[], []] } =
      questSecondRound.serialize) :=
  ⟨rfl, rfl, quest_serialize_spec questSecondRound [] [[], []] rfl rfl⟩

/-- C7: from any current state and with any registered listeners, `go`
succeeds exactly on the ten transitions of the spec's table and fails with
`IllegalTransition` on every other pair. -/
theorem machine_transitions_spec (s t : GameState) (cbs : List GameState) :
    TSFsm.go { currentState := s, transitions := machineTransitions,
               onCallbacks := cbs } t =
      if (s, t) ∈ ([(.preparation, .teamProposition),
        (.teamProposition, .teamVoting),
        (.teamProposition, .teamVotingPreApproved),
        (.teamVoting, .teamProposition),
        (.teamVoting, .questVoting),
        (.teamVotingPreApproved, .questVoting),
        (.questVoting, .teamProposition),
        (.questVoting, .assassination),
        (.questVoting, .finish),
        (.assassination, .finish)] : List (GameState × GameState)) then
        .ok { currentState := t, transitions := machineTransitions,
              onCallbacks := cbs }
      else .error .illegalTransition := by
  cases s <;> cases t <;> rfl

/-- C10: `init` is idempotent — after a first `init`, any further `init`
with any game argument returns the machine unchanged, so no transition
table or listener is ever registered twice. -/
theorem machine_init_idempotent {γ : Type} (m : GameStateMachine γ) (g g' : γ) :
    (m.init g).init g' = m.init g := by
  cases hb : m.isInit <;>
    simp [GameStateMachine.init, hb, initTransitions, initTransitionListeners]

theorem jsAppend_nil_right : ∀ o : JSObj, jsAppend o .nil = o
  | .nil => rfl
  | .cons k v rest => by rw [jsAppend, jsAppend_nil_right rest]

theorem jsAppend_assoc : ∀ a b c : JSObj,
    jsAppend (jsAppend a b) c = jsAppend a (jsAppend b c)
  | .nil, _, _ => rfl
  | .cons k v rest, b, c => by
    simp only [jsAppend, jsAppend_assoc rest b c]

theorem jsKeys_jsAppend : ∀ a b : JSObj,
    jsKeys (jsAppend a b) = jsKeys a ++ jsKeys b
  | .nil, _ => rfl
  | .cons k v rest, b => by
    simp only [jsAppend, jsKeys, jsKeys_jsAppend rest b, List.cons_append]

theorem jsUnset_not_mem : ∀ (o : JSObj) (key : String), key ∉ jsKeys o →
    jsUnset o key = o
  | .nil, _, _ => rfl
  | .cons k v rest, key, h => by
    have hk : ¬ k = key := fun he => h (by rw [he]; exact List.mem_cons_self _ _)
    rw [jsUnset, if_neg hk, jsUnset_not_mem rest key (fun hm => h (List.mem_cons_of_mem _ hm))]

theorem jsUnset_jsAppend : ∀ (a b : JSObj) (key : String),
    jsUnset (jsAppend a b) key = jsAppend (jsUnset a key) (jsUnset b key)
  | .nil, _, _ => rfl
  | .cons k v rest, b, key => by
    by_cases hk : k = key
    · simp only [jsAppend, jsUnset, if_pos hk, jsUnset_jsAppend rest b key]
    · simp only [jsAppend, jsUnset, if_neg hk, jsUnset_jsAppend rest b key]

theorem jsSet_not_mem : ∀ (o : JSObj) (key : String) (v : JSVal),
    key ∉ jsKeys o → jsSet o key v = jsAppend o (.cons key v .nil)
  | .nil, _, _, _ => rfl
  | .cons k w rest, key, v, h => by
    have hk : ¬ k = key := fun he => h (by rw [he]; exact List.mem_cons_self _ _)
    rw [jsSet, if_neg hk, jsAppend,
      jsSet_not_mem rest key v (fun hm => h (List.mem_cons_of_mem _ hm))]

theorem walkFieldsWith_cons (wv : JSVal → Except WalkError JSVal)
    (k : String) (props : List String) (st : JSObj) :
    walkFieldsWith wv (k :: props) st =
      (if skipField ((jsGet st k).getD .undef) then
        walkFieldsWith wv props (jsUnset st k)
      else if isObjectLike ((jsGet st k).getD .undef) then
        match wv ((jsGet st k).getD .undef) with
        | .error e => .error e
        | .ok w =>
          walkFieldsWith wv props
            (jsSet (jsUnset st k) (stripFirstUnderscore k) w)
      else
        walkFieldsWith wv props
          (jsSet (jsUnset st k) (stripFirstUnderscore k)
            ((jsGet st k).getD .undef))) := rfl

theorem walkArr_eq_clean : ∀ a : JSArr, walkArr a = cleanSnapshotArr a
  | .nil => rfl
  | .cons v rest => by
    rw [walkArr, cleanSnapshotArr, walkArr_eq_clean rest]

theorem cleanVal_id (v : JSVal) (hs : skipField v = false)
    (hol : isObjectLike v = false) : cleanSnapshotVal v = .ok v := by
  cases v <;> simp_all [skipField, isObjectLike] <;> rfl

mutual
theorem walkVal_clean : ∀ (v : JSVal) (fuel : Nat),
    noCollisionVal v = true → depthVal v ≤ fuel →
    walkVal fuel v = cleanSnapshotVal v
  | .prim s, fuel, _, hd => by
    cases fuel with
    | zero => simp [depthVal] at hd
    | succ f => rfl
  | .func, fuel, _, hd => by
    cases fuel with
    | zero => simp [depthVal] at hd
    | succ f => rfl
  | .promise b, fuel, _, hd => by
    cases fuel with
    | zero => simp [depthVal] at hd
    | succ f => rfl
  | .undef, fuel, _, hd => by
    cases fuel with
    | zero => simp [depthVal] at hd
    | succ f => rfl
  | .arr a, fuel, _, hd => by
    cases fuel with
    | zero => simp [depthVal] at hd
    | succ f =>
      show (walkArr a).map JSVal.arr = (cleanSnapshotArr a).map JSVal.arr
      rw [walkArr_eq_clean a]
  | .obj o, fuel, hnc, hd => by
    cases fuel with
    | zero => simp [depthVal] at hd
    | succ f =>
      have hd1 : depthObj o ≤ f := by
        simp only [depthVal] at hd
        omega
      have hnc1 : noCollisionObj o = true := by
        simpa [noCollisionVal] using hnc
      show (walkFieldsWith (walkVal f) (jsKeys o) o).map JSVal.obj =
        (cleanSnapshotObj o).map JSVal.obj
      rw [walkFields_clean o JSObj.nil f o hnc1 hd1
        (fun x _ hc => by cases hc) (fun x _ hc => by cases hc)
        (jsAppend_nil_right o).symm]
      rcases hc : cleanSnapshotObj o with e | c <;>
        simp [hc, jsAppend, Except.map]
theorem walkFields_clean : ∀ (rest outs : JSObj) (fuel : Nat) (st : JSObj),
    noCollisionObj rest = true → depthObj rest ≤ fuel →
    (∀ x, x ∈ jsKeys rest → x ∉ jsKeys outs) →
    (∀ x, x ∈ keptStrippedKeys rest → x ∉ jsKeys outs) →
    st = jsAppend rest outs →
    walkFieldsWith (walkVal fuel) (jsKeys rest) st =
      (cleanSnapshotObj rest).map (fun c => jsAppend outs c)
  | .nil, outs, fuel, st, _, _, _, _, hst => by
    show Except.ok st = _
    rw [hst]
    simp [cleanSnapshotObj, jsAppend, jsAppend_nil_right, Except.map]
  | .cons k v rest', outs, fuel, st, hnc, hd, hdisj, hkdisj, hst => by
    subst hst
    simp only [depthObj, Nat.max_le] at hd
    simp only [jsKeys, jsAppend]
    rw [walkFieldsWith_cons]
    have hget : jsGet (JSObj.cons k v (jsAppend rest' outs)) k = some v := by
      simp [jsGet]
    rw [hget]
    simp only [Option.getD_some]
    have hk0 : k ∉ jsKeys outs := hdisj k (by simp [jsKeys])
    simp only [noCollisionObj, Bool.and_eq_true, Bool.not_eq_true',
      decide_eq_false_iff_not] at hnc
    obtain ⟨hk1, hnc0⟩ := hnc
    have hun : jsUnset (JSObj.cons k v (jsAppend rest' outs)) k =
        jsAppend rest' outs := by
      rw [jsUnset, if_pos rfl, jsUnset_jsAppend, jsUnset_not_mem rest' k hk1,
        jsUnset_not_mem outs k hk0]
    rw [hun]
    have hdisj2 : ∀ x, x ∈ jsKeys rest' → x ∉ jsKeys outs :=
      fun x hx => hdisj x (by simp [jsKeys, hx])
    rcases hs : skipField v with _ | _
    · -- the field is kept
      rw [hs] at hnc0
      simp only [Bool.false_eq_true, if_false, Bool.and_eq_true,
        Bool.not_eq_true', decide_eq_false_iff_not] at hnc0
      obtain ⟨⟨⟨hs1, hs2⟩, hncv⟩, hnc2⟩ := hnc0
      have hkdisj2 : ∀ x, x ∈ keptStrippedKeys rest' → x ∉ jsKeys outs := by
        intro x hx
        exact hkdisj x (by simp [keptStrippedKeys, hs, hx])
      have hsknotin : stripFirstUnderscore k ∉
          jsKeys (jsAppend rest' outs) := by
        rw [jsKeys_jsAppend]
        intro hmem
        rcases List.mem_append.mp hmem with hm | hm
        · exact hs1 hm
        · exact hkdisj (stripFirstUnderscore k)
            (by simp [keptStrippedKeys, hs]) hm
      have hcont : ∀ w : JSVal, cleanSnapshotVal v = .ok w →
          walkFieldsWith (walkVal fuel) (jsKeys rest')
            (jsSet (jsAppend rest' outs) (stripFirstUnderscore k) w) =
          (cleanSnapshotObj (JSObj.cons k v rest')).map
            (fun c => jsAppend outs c) := by
        intro w hw
        rw [jsSet_not_mem _ _ _ hsknotin, jsAppend_assoc]
        rw [walkFields_clean rest'
          (jsAppend outs (JSObj.cons (stripFirstUnderscore k) w JSObj.nil))
          fuel _ hnc2 hd.2
          (by
            intro x hx hmem
            rw [jsKeys_jsAppend] at hmem
            rcases List.mem_append.mp hmem with hm | hm
            · exact hdisj2 x hx hm
            · simp only [jsKeys, List.mem_singleton] at hm
              subst hm
              exact hs1 hx)
          (by
            intro x hx hmem
            rw [jsKeys_jsAppend] at hmem
            rcases List.mem_append.mp hmem with hm | hm
            · exact hkdisj2 x hx hm
            · simp only [jsKeys, List.mem_singleton] at hm
              subst hm
              exact hs2 hx)
          rfl]
        rcases hr : cleanSnapshotObj rest' with e | rc <;>
          simp [cleanSnapshotObj, hs, hw, hr, jsAppend_assoc, jsAppend,
            Except.map]
      rw [if_neg Bool.false_ne_true]
      rcases hol : isObjectLike v with _ | _
      · rw [if_neg Bool.false_ne_true]
        exact hcont v (cleanVal_id v hs hol)
      · rw [if_pos rfl]
        rw [walkVal_clean v fuel hncv hd.1]
        rcases hw : cleanSnapshotVal v with e | w
        · simp [cleanSnapshotObj, hs, hw, Except.map]
        · exact hcont w hw
    · -- the field is skipped
      rw [hs] at hnc0
      simp only [if_true] at hnc0
      rw [if_pos rfl]
      rw [walkFields_clean rest' outs fuel _ hnc0 hd.2 hdisj2
        (fun x hx => hkdisj x (by simp [keptStrippedKeys, hs, hx])) rfl]
      simp [cleanSnapshotObj, hs, Except.map]
end

theorem plainObj_of_plainOutside_nil : ∀ st : JSObj,
    plainOutside [] st = true → plainObj st = true
  | .nil, _ => rfl
  | .cons k v rest, h => by
    simp only [plainOutside, Bool.and_eq_true, Bool.or_eq_true,
      decide_eq_true_eq] at h
    obtain ⟨h1, h2⟩ := h
    rcases h1 with h1 | h1
    · exact absurd h1 (List.not_mem_nil k)
    · simp [plainObj, h1, plainObj_of_plainOutside_nil rest h2]

theorem plainOutside_superset : ∀ (o : JSObj) (props props2 : List String),
    (∀ x, x ∈ props → x ∈ props2) →
    plainOutside props o = true → plainOutside props2 o = true
  | .nil, _, _, _, _ => rfl
  | .cons k v rest, props, props2, hsub, h => by
    simp only [plainOutside, Bool.and_eq_true, Bool.or_eq_true,
      decide_eq_true_eq] at h ⊢
    obtain ⟨h1, h2⟩ := h
    refine ⟨?_, plainOutside_superset rest props props2 hsub h2⟩
    rcases h1 with h1 | h1
    · exact Or.inl (hsub k h1)
    · exact Or.inr h1

theorem plainOutside_self : ∀ o : JSObj, plainOutside (jsKeys o) o = true
  | .nil => rfl
  | .cons k v rest => by
    simp only [plainOutside, Bool.and_eq_true, Bool.or_eq_true,
      decide_eq_true_eq]
    constructor
    · exact Or.inl (by simp [jsKeys])
    · exact plainOutside_superset rest (jsKeys rest) (k :: jsKeys rest)
        (fun x hx => by simp [hx]) (plainOutside_self rest)

theorem plainOutside_unset : ∀ (st : JSObj) (k : String) (props : List String),
    plainOutside (k :: props) st = true →
    plainOutside props (jsUnset st k) = true
  | .nil, _, _, _ => rfl
  | .cons k0 v rest, k, props, h => by
    simp only [plainOutside, Bool.and_eq_true, Bool.or_eq_true,
      decide_eq_true_eq, List.mem_cons] at h
    obtain ⟨h1, h2⟩ := h
    by_cases hk : k0 = k
    · rw [jsUnset, if_pos hk]
      exact plainOutside_unset rest k props h2
    · rw [jsUnset, if_neg hk]
      simp only [plainOutside, Bool.and_eq_true, Bool.or_eq_true,
        decide_eq_true_eq]
      refine ⟨?_, plainOutside_unset rest k props h2⟩
      rcases h1 with (h1 | h1) | h1
      · exact absurd h1 hk
      · exact Or.inl h1
      · exact Or.inr h1

theorem plainOutside_set : ∀ (st : JSObj) (props : List String) (key : String)
    (v : JSVal), plainOutside props st = true → plainVal v = true →
    plainOutside props (jsSet st key v) = true
  | .nil, props, key, v, _, hv => by
    simp [jsSet, plainOutside, hv]
  | .cons k0 w rest, props, key, v, h, hv => by
    simp only [plainOutside, Bool.and_eq_true, Bool.or_eq_true,
      decide_eq_true_eq] at h
    obtain ⟨h1, h2⟩ := h
    by_cases hk : k0 = key
    · rw [jsSet, if_pos hk]
      simp only [plainOutside, Bool.and_eq_true, Bool.or_eq_true,
        decide_eq_true_eq]
      exact ⟨Or.inr hv, h2⟩
    · rw [jsSet, if_neg hk]
      simp only [plainOutside, Bool.and_eq_true, Bool.or_eq_true,
        decide_eq_true_eq]
      exact ⟨h1, plainOutside_set rest props key v h2 hv⟩

theorem plainVal_of_data (v : JSVal) (hs : skipField v = false)
    (hol : isObjectLike v = false) : plainVal v = true := by
  cases v <;> simp_all [skipField, isObjectLike, plainVal]

theorem walkArr_plain : ∀ (a w : JSArr), walkArr a = .ok w → plainArr w = true
  | .nil, w, h => by
    simp only [walkArr] at h
    cases h
    rfl
  | .cons v rest, w, h => by
    simp only [walkArr] at h
    rcases hs : skipField v with _ | _ <;> rw [hs] at h
    · rw [if_neg Bool.false_ne_true] at h
      cases h
    · rw [if_pos rfl] at h
      rcases hr : walkArr rest with e | rc <;> rw [hr] at h
      · simp [Except.map] at h
      · simp only [Except.map] at h
        cases h
        show (plainVal JSVal.undef && plainArr rc) = true
        rw [walkArr_plain rest rc hr]
        rfl

theorem walkFieldsWith_plain (wv : JSVal → Except WalkError JSVal)
    (hwv : ∀ v w, skipField v = false → wv v = .ok w → plainVal w = true) :
    ∀ (props : List String) (st w : JSObj),
    plainOutside props st = true →
    walkFieldsWith wv props st = .ok w → plainObj w = true := by
  intro props
  induction props with
  | nil =>
    intro st w hout h
    simp only [walkFieldsWith] at h
    cases h
    exact plainObj_of_plainOutside_nil st hout
  | cons k props ih =>
    intro st w hout h
    rw [walkFieldsWith_cons] at h
    rcases hs : skipField ((jsGet st k).getD .undef) with _ | _ <;>
      rw [hs] at h
    · rw [if_neg Bool.false_ne_true] at h
      rcases hol : isObjectLike ((jsGet st k).getD .undef) with _ | _ <;>
        rw [hol] at h
      · rw [if_neg Bool.false_ne_true] at h
        exact ih _ _ (plainOutside_set _ _ _ _ (plainOutside_unset st k props hout)
          (plainVal_of_data _ hs hol)) h
      · rw [if_pos rfl] at h
        rcases hw : wv ((jsGet st k).getD .undef) with e | w0 <;> rw [hw] at h
        · cases h
        · exact ih _ _ (plainOutside_set _ _ _ _
            (plainOutside_unset st k props hout) (hwv _ w0 hs hw)) h
    · rw [if_pos rfl] at h
      exact ih _ _ (plainOutside_unset st k props hout) h

theorem walkVal_plain : ∀ (fuel : Nat) (v w : JSVal), skipField v = false →
    walkVal fuel v = .ok w → plainVal w = true := by
  intro fuel
  induction fuel with
  | zero =>
    intro v w _ h
    simp [walkVal] at h
  | succ f ih =>
    intro v w hs h
    cases v with
    | prim s =>
      simp only [walkVal] at h
      cases h
      rfl
    | func => simp [skipField] at hs
    | promise b => simp [skipField] at hs
    | undef =>
      simp only [walkVal] at h
      cases h
      rfl
    | obj o =>
      simp only [walkVal] at h
      rcases hwf : walkFieldsWith (walkVal f) (jsKeys o) o with e | o2 <;>
        rw [hwf] at h
      · simp [Except.map] at h
      · simp only [Except.map] at h
        cases h
        show plainObj o2 = true
        exact walkFieldsWith_plain (walkVal f)
          (fun v2 w2 hs2 hw2 => ih v2 w2 hs2 hw2)
          (jsKeys o) o o2 (plainOutside_self o) hwf
    | arr a =>
      simp only [walkVal] at h
      rcases ha : walkArr a with e | a2 <;> rw [ha] at h
      · simp [Except.map] at h
      · simp only [Except.map] at h
        cases h
        show plainArr a2 = true
        exact walkArr_plain a a2 ha

/-- C8 amended: on every alias-free object graph whose stripped field
names do not collide, the snapshot constructor computes exactly the
amended contract `cleanSnapshotObj` — function and promise fields (settled
or not) dropped, the FIRST underscore of each remaining field name
removed, plain objects recursed into, arrays surviving only when all their
elements are dropped — and the output, whenever the walk succeeds, is a
plain tree, free of functions and promises. -/
theorem snapshot_spec (o : JSObj) (hnc : noCollisionObj o = true) :
    gameStateSnapshot o = cleanSnapshotObj o ∧
    exceptPlain (gameStateSnapshot o) = true := by
  constructor
  · show walkFieldsWith (walkVal (depthObj o)) (jsKeys o) o = cleanSnapshotObj o
    rw [walkFields_clean o JSObj.nil (depthObj o) o hnc (Nat.le_refl _)
      (fun x _ hc => by cases hc) (fun x _ hc => by cases hc)
      (jsAppend_nil_right o).symm]
    rcases hc : cleanSnapshotObj o with e | c <;>
      simp [hc, Except.map, jsAppend]
  · rcases hw : gameStateSnapshot o with e | w
    · simp [exceptPlain]
    · show plainObj w = true
      exact walkFieldsWith_plain (walkVal (depthObj o))
        (fun v2 w2 hs2 hw2 => walkVal_plain (depthObj o) v2 w2 hs2 hw2)
        (jsKeys o) o w (plainOutside_self o) hw

/-- C8 counterexample: (i) a field named `a_b` — no leading underscore —
comes out renamed to `ab` (the regex removes the first underscore
anywhere); (ii) a field holding an already-settled promise is omitted all
the same; (iii) recursing into a non-empty array of data throws instead of
applying "the same rules"; (iv) a stripped key colliding with a later key
overwrites and destroys that later field; (v) through such a collision the
overwritten value is walked twice, so `__x` loses BOTH underscores. -/
theorem snapshot_counterexample :
    gameStateSnapshot (JSObj.cons "a_b" (.prim "x") .nil) =
      .ok (JSObj.cons "ab" (.prim "x") .nil) ∧
    "ab" ≠ "a_b" ∧
    gameStateSnapshot (JSObj.cons "p" (.promise true) .nil) = .ok JSObj.nil ∧
    gameStateSnapshot
      (JSObj.cons "xs" (.arr (JSArr.cons (.prim "1") JSArr.nil)) JSObj.nil) =
      .error .typeError ∧
    gameStateSnapshot
      (JSObj.cons "_a" (.prim "x") (JSObj.cons "a" (.prim "y") JSObj.nil)) =
      .ok (JSObj.cons "a" (.prim "x") JSObj.nil) ∧
    gameStateSnapshot
      (JSObj.cons "_a" (.obj (JSObj.cons "__x" (.prim "1") JSObj.nil))
        (JSObj.cons "a" (.prim "2") JSObj.nil)) =
      .ok (JSObj.cons "a"
        (.obj (JSObj.cons "x" (.prim "1") JSObj.nil)) JSObj.nil) := by
  decide

/-- Witness for the C8 theorem at a nested, underscore-renaming,
function-dropping object. -/
theorem snapshot_spec_witness :
    noCollisionObj (JSObj.cons "_quest"
      (.obj (JSObj.cons "_fails" (.prim "1") JSObj.nil))
      (JSObj.cons "fn" .func JSObj.nil)) = true ∧
    (gameStateSnapshot (JSObj.cons "_quest"
        (.obj (JSObj.cons "_fails" (.prim "1") JSObj.nil))
        (JSObj.cons "fn" .func JSObj.nil)) =
      cleanSnapshotObj (JSObj.cons "_quest"
        (.obj (JSObj.cons "_fails" (.prim "1") JSObj.nil))
        (JSObj.cons "fn" .func JSObj.nil)) ∧
    exceptPlain (gameStateSnapshot (JSObj.cons "_quest"
        (.obj (JSObj.cons "_fails" (.prim "1") JSObj.nil))
        (JSObj.cons "fn" .func JSObj.nil))) = true) :=
  ⟨by decide, snapshot_spec _ (by decide)⟩
